import Mathlib

/-!
Verification development for the AML (Arnold Maps Linker) repository.

The code under verification is `AML_Tools/Link_Material.py` (the
texture-channel resolution engine inside the `set_maya_*_attributes`
functions) and `AML_Tools/Texture_name_manager.py` (`add_texture_name`).
Strings are modelled as `List Char`; paths as ASCII strings (every term,
path and filename appearing in the repository and its configuration is
ASCII, so Python's Unicode-aware `str.lower` and `re.IGNORECASE` coincide
with ASCII lowercasing below).  The filesystem existence check
`os.path.exists` is modelled as an abstract probe `fs : Path → Bool`.
-/

namespace AML

/-- Paths and strings are lists of characters. -/
abbrev Path := List Char

/-- Coerce a Lean string literal to the `List Char` model. -/
def strL (s : String) : Path := s.data

/-- ASCII lowercasing of one character: models Python `str.lower` /
`re.IGNORECASE` on the ASCII range (all inputs in this development are
ASCII). -/
def lowerChar (c : Char) : Char :=
  if 'A' ≤ c ∧ c ≤ 'Z' then Char.ofNat (c.toNat + 32) else c

/-- Lowercase a whole string, models Python `s.lower()` on ASCII. -/
def lowerStr (s : Path) : Path := s.map lowerChar

/-- Index of the last occurrence of `c` in `l` (Python `str.rfind`,
`none` standing for rfind's `-1`). -/
def lastIdxOf (c : Char) : List Char → Option Nat
  | [] => none
  | a :: t =>
    match lastIdxOf c t with
    | some i => some (i + 1)
    | none => if a = c then some 0 else none

/-- Python `os.path.splitext` (posixpath flavour, separator `/`): split
off the extension at the last dot, provided that dot lies after the last
path separator and the basename has a non-dot character before it
(so `.bashrc` has no extension). -/
def splitext (p : Path) : Path × Path :=
  match lastIdxOf '.' p with
  | none => (p, [])
  | some d =>
    let start : Nat :=
      match lastIdxOf '/' p with
      | none => 0
      | some s => s + 1
    if start ≤ d ∧ ((p.drop start).take (d - start)).any (fun c => c ≠ '.') then
      (p.take d, p.drop d)
    else (p, [])

/-- First index at which `needle` occurs as a (contiguous) sublist of the
haystack; leftmost match, as returned by Python `re.search` for a literal
pattern. -/
def findSub (needle : Path) : Path → Option Nat
  | [] => if needle = [] then some 0 else none
  | a :: t =>
    if needle.isPrefixOf (a :: t) then some 0
    else (findSub needle t).map (· + 1)

/-- Python `re.search(re.escape(term), s, re.IGNORECASE)` for ASCII data:
the span `(match.start(), match.end())` of the leftmost case-insensitive
occurrence of the literal `term` in `s`. -/
def reSearchCI (term s : Path) : Option (Nat × Nat) :=
  (findSub (lowerStr term) (lowerStr s)).map (fun i => (i, i + term.length))

/-- The literal searched by `re.sub(r'_LOD.*', '', base_name)`. -/
def lodPat : Path := strL "_LOD"

/-- Fuelled worker for `reSubLod`.  `re.sub(r'_LOD.*', '', s)` deletes,
left to right, each match of `_LOD` followed by all characters up to the
next newline (`.` does not match `\n`), and rescans from the character
after the match.  One recursion step per deleted match; the remainder
shrinks by at least 4 characters, so `s.length` fuel suffices. -/
def reSubLodAux : Nat → Path → Path
  | 0, s => s
  | fuel + 1, s =>
    match findSub lodPat s with
    | none => s
    | some i =>
      s.take i ++ reSubLodAux fuel ((s.drop (i + 4)).dropWhile (fun c => c ≠ '\n'))

/-- Python `re.sub(r'_LOD.*', '', base_name)` (Link_Material.py line 200).
For newline-free paths this just truncates at the first `_LOD`. -/
def reSubLod (s : Path) : Path := reSubLodAux s.length s

/-- Python `posixpath.normpath`: collapse repeated separators and
`.`/`..` components (Link_Material.py line 217 applies it to each
potential roughness path). -/
def normpath (p : Path) : Path :=
  if p = [] then strL "."
  else
    let initialSlashes : Nat :=
      if p.take 1 = strL "/" then
        if p.take 2 = strL "//" ∧ p.take 3 ≠ strL "///" then 2 else 1
      else 0
    let comps := p.splitOn '/'
    let newComps := comps.foldl (fun acc comp =>
      if comp = [] ∨ comp = strL "." then acc
      else if comp ≠ strL ".." ∨ (initialSlashes = 0 ∧ acc = []) ∨
              (acc ≠ [] ∧ acc.getLast? = some (strL "..")) then acc ++ [comp]
      else if acc ≠ [] then acc.dropLast
      else acc) []
    let joined := List.replicate initialSlashes '/' ++ List.intercalate (strL "/") newComps
    if joined = [] then strL "." else joined

/-- One entry of a category list in the naming-dictionary JSON:
`{"name": string, "locked": bool}`. -/
structure Entry where
  name : Path
  locked : Bool
deriving DecidableEq

/-- The naming-dictionary JSON document.  Category fields model
`json_data.get(category, [])` (a missing key and an empty list are the
same, namely `[]`); the two global flags model `json_data.get(flag)`
(`none` = key absent, which Python treats as falsy). -/
structure TextureData where
  BaseColor : List Entry
  Roughness : List Entry
  Metallic : List Entry
  Normal : List Entry
  Height : List Entry
  Opacity : List Entry
  prefer_exr : Option Bool
  udim : Option Bool
deriving DecidableEq

/-- `lod_levels = ["", "_LOD0", "_LOD1", "_LOD2"]` (Link_Material.py
line 205). -/
def lod_levels : List Path := [strL "", strL "_LOD0", strL "_LOD1", strL "_LOD2"]

/-- `image_extensions = ['.exr', '.jpg', '.png', '.tif', '.tiff']`
(Link_Material.py line 220). -/
def image_extensions : List Path :=
  [strL ".exr", strL ".jpg", strL ".png", strL ".tif", strL ".tiff"]

/-- The extension list used by `set_maya_displacement_attributes`
(lines 381-384): start from `image_extensions`; unless `prefer_exr` is
truthy, `remove('.exr')` then `append('.exr')`. -/
def dispImageExtensions (prefer_exr : Option Bool) : List Path :=
  if prefer_exr = some true then image_extensions
  else (image_extensions.erase (strL ".exr")) ++ [strL ".exr"]

/-- The innermost loop of each `set_maya_*_attributes` function
(`for ext in image_extensions: candidate_path = splitext(pot)[0] + ext;
if os.path.exists(candidate_path): ... break`), lines 221-226.  Returns
the ordered trace of paths handed to `os.path.exists` together with the
first existing candidate, if any. -/
def probeExts (fs : Path → Bool) (pot : Path) : List Path → List Path × Option Path
  | [] => ([], none)
  | e :: rest =>
    if fs ((splitext pot).1 ++ e) then
      ([(splitext pot).1 ++ e], some ((splitext pot).1 ++ e))
    else
      (((splitext pot).1 ++ e) :: (probeExts fs pot rest).1, (probeExts fs pot rest).2)

/-- Sequencing of the `found_valid_path` break logic: if the first stage
found a path, stop; otherwise run the second stage and concatenate the
probe traces. -/
def seqThen (a b : List Path × Option Path) : List Path × Option Path :=
  match a.2 with
  | some c => (a.1, some c)
  | none => (a.1 ++ b.1, b.2)

/-- The LOD loop (`for lod in lod_levels`, lines 212-229): build
`image_path[:match.start()] + replacement + lod + image_path[match.end():]`,
normalize it with `norm` (`os.path.normpath` in the roughness function,
the identity in the other channels), probe all extensions, and break as
soon as a candidate exists. -/
def probeLods (fs : Path → Bool) (norm : Path → Path) (exts : List Path)
    (ip : Path) (s e : Nat) (repl : Path) : List Path → List Path × Option Path
  | [] => ([], none)
  | lod :: rest =>
    seqThen (probeExts fs (norm (ip.take s ++ repl ++ lod ++ ip.drop e)) exts)
      (probeLods fs norm exts ip s e repl rest)

/-- The replacement-term loop (`for replacement in roughness_terms`,
lines 209-232): re-run the case-insensitive search of `term` in the
(canonicalized) image path; on a match run the LOD loop; break out as
soon as a candidate exists. -/
def probeRepls (fs : Path → Bool) (norm : Path → Path) (exts : List Path)
    (ip term : Path) : List Path → List Path × Option Path
  | [] => ([], none)
  | repl :: rest =>
    match reSearchCI term ip with
    | some (s, e) =>
      seqThen (probeLods fs norm exts ip s e repl lod_levels)
        (probeRepls fs norm exts ip term rest)
    | none => probeRepls fs norm exts ip term rest

/-- The outer loop over base-color terms (`for term in base_color_terms`,
lines 208-234), with the cascading `found_valid_path` breaks. -/
def probeTerms (fs : Path → Bool) (norm : Path → Path) (exts : List Path)
    (ip : Path) (repls : List Path) : List Path → List Path × Option Path
  | [] => ([], none)
  | term :: rest =>
    seqThen (probeRepls fs norm exts ip term repls)
      (probeTerms fs norm exts ip repls rest)

/-- LOD canonicalization (lines 197-201): split the extension off,
delete the `_LOD...` suffix from the stem, reattach the extension. -/
def canonicalize (image_path : Path) : Path :=
  reSubLod (splitext image_path).1 ++ (splitext image_path).2

/-- Outcome of one channel resolution.  `configError` is the
`"No valid texture terms found in the JSON data."` warning + early
return (an empty required category list); `notFound` is the
`"No ... texture found at path"` warning + early return; `found p` means
the texture node is wired to path `p`.  No Python exception is raised on
any of these paths. -/
inductive ResolveResult where
  | configError : ResolveResult
  | notFound : ResolveResult
  | found : Path → ResolveResult
deriving DecidableEq

/-- The channel-resolution core shared verbatim by the five
`set_maya_*_attributes` functions (shown for roughness, lines 190-239):
extract the term lists, fail if either is empty, canonicalize the LOD
suffix away, then run the nested probe loops.  The functions differ only
in `norm` (roughness applies `os.path.normpath`, line 217; the others do
not) and `exts` (displacement reorders by `prefer_exr`, lines 381-384). -/
def resolveChannel (fs : Path → Bool) (norm : Path → Path) (exts : List Path)
    (bc_entries target_entries : List Entry) (image_path : Path) : ResolveResult :=
  if (bc_entries.map Entry.name).isEmpty || (target_entries.map Entry.name).isEmpty then
    .configError
  else
    match (probeTerms fs norm exts (canonicalize image_path)
        (target_entries.map Entry.name) (bc_entries.map Entry.name)).2 with
    | some p => .found p
    | none => .notFound

/-- `set_maya_roughness_attributes` resolution core (lines 190-239). -/
def resolveRoughness (fs : Path → Bool) (data : TextureData) (image_path : Path) : ResolveResult :=
  resolveChannel fs normpath image_extensions data.BaseColor data.Roughness image_path

/-- `set_maya_metallic_attributes` resolution core (lines 271-319; no
`normpath`). -/
def resolveMetallic (fs : Path → Bool) (data : TextureData) (image_path : Path) : ResolveResult :=
  resolveChannel fs id image_extensions data.BaseColor data.Metallic image_path

/-- `set_maya_normal_attributes` resolution core (lines 443-489). -/
def resolveNormal (fs : Path → Bool) (data : TextureData) (image_path : Path) : ResolveResult :=
  resolveChannel fs id image_extensions data.BaseColor data.Normal image_path

/-- `set_maya_opacity_attributes` resolution core (lines 524-572). -/
def resolveOpacity (fs : Path → Bool) (data : TextureData) (image_path : Path) : ResolveResult :=
  resolveChannel fs id image_extensions data.BaseColor data.Opacity image_path

/-- `set_maya_displacement_attributes` resolution core (lines 351-404):
identity normalization, extension list reordered per `prefer_exr`. -/
def resolveDisplacement (fs : Path → Bool) (data : TextureData) (image_path : Path) : ResolveResult :=
  resolveChannel fs id (dispImageExtensions data.prefer_exr) data.BaseColor data.Height image_path

/-- Ordered trace of `os.path.exists` probes made by the roughness
resolution loops (empty when a required term list is empty, since the
loops are then never entered). -/
def roughnessTrace (fs : Path → Bool) (data : TextureData) (image_path : Path) : List Path :=
  (probeTerms fs normpath image_extensions (canonicalize image_path)
    (data.Roughness.map Entry.name) (data.BaseColor.map Entry.name)).1

/-- The flattened candidate list produced for one base-color term: no
candidates when the term does not occur; otherwise the nested
replacement-term / LOD-suffix / extension enumeration the loops probe. -/
def termCandidates (norm : Path → Path) (exts : List Path) (ip term : Path)
    (repls : List Path) : List Path :=
  match reSearchCI term ip with
  | none => []
  | some (s, e) =>
    repls.flatMap (fun repl =>
      lod_levels.flatMap (fun lod =>
        exts.map (fun ext =>
          (splitext (norm (ip.take s ++ repl ++ lod ++ ip.drop e))).1 ++ ext)))

/-- The full flattened candidate list over all base-color terms. -/
def channelCandidates (norm : Path → Path) (exts : List Path) (ip : Path)
    (repls terms : List Path) : List Path :=
  terms.flatMap (fun term => termCandidates norm exts ip term repls)

/-- Reference probe of an explicit candidate list: test candidates in
order, stop at the first hit; returns the probe trace and the result. -/
def probeSeq (fs : Path → Bool) : List Path → List Path × Option Path
  | [] => ([], none)
  | c :: rest =>
    if fs c then ([c], some c)
    else (c :: (probeSeq fs rest).1, (probeSeq fs rest).2)

/-- Modelled from the spec claim's own words (C2): each candidate equals
`filename[:match_start] + replacement_term + lod_suffix + filename[match_end:]`
with the extension substituted by the loop extension, enumerated outer
over replacement terms, middle over LOD suffixes, inner over extensions —
with no path normalization step. -/
def specGenerate (ip : Path) (s e : Nat) (repls exts : List Path) : List Path :=
  repls.flatMap (fun repl =>
    lod_levels.flatMap (fun lod =>
      exts.map (fun ext =>
        (splitext (ip.take s ++ repl ++ lod ++ ip.drop e)).1 ++ ext)))

/-- `add_texture_name` core (Texture_name_manager.py lines 152-177),
for the category list being edited: reject the whole batch if any
submitted name equals (case-sensitively) an existing name in the
category, otherwise append every submitted name with `locked = false`.
(`names` is `alternative_names_list`, the comma-split, stripped text
field content.) -/
def add_texture_name (existing : List Entry) (names : List Path) : List Entry :=
  if names.filter (fun n => (existing.map Entry.name).contains n) ≠ [] then existing
  else existing ++ names.map (fun n => { name := n, locked := false })

/-- Python `os.path.basename` (posixpath flavour): everything after the
last `/`. -/
def basename (p : Path) : Path :=
  match lastIdxOf '/' p with
  | none => p
  | some i => p.drop (i + 1)

/-- `validate_image_file` (Link_Material.py lines 123-137): lowercase
the basename, then accept iff any dictionary BaseColor term or one of
the hardcoded terms `basecolor`, `albedo`, `diffuse` occurs in it
(case-insensitively). -/
def validate_image_file (file_path : Path) (base_color_terms : List Path) : Bool :=
  (base_color_terms ++ [strL "basecolor", strL "albedo", strL "diffuse"]).any
    (fun term => (findSub (lowerStr term) (lowerStr (basename file_path))).isSome)

/-- The example dictionary of the spec's example scenario:
`BaseColor = ["BaseColor", "Albedo"]`, `Roughness = ["Roughness"]`. -/
def exampleDict : TextureData :=
  { BaseColor := [⟨strL "BaseColor", false⟩, ⟨strL "Albedo", false⟩]
    Roughness := [⟨strL "Roughness", false⟩]
    Metallic := [], Normal := [], Height := [], Opacity := []
    prefer_exr := none, udim := none }

/-- The example filesystem state: only `Rock_Roughness.png` exists. -/
def exampleFs : Path → Bool := fun p => p == strL "Rock_Roughness.png"

/-- A one-term-per-category dictionary used in concrete instances. -/
def minimalDict : TextureData :=
  { BaseColor := [⟨strL "BaseColor", false⟩]
    Roughness := [⟨strL "Roughness", false⟩]
    Metallic := [], Normal := [], Height := [], Opacity := []
    prefer_exr := none, udim := none }

/-- The dictionary with every category list empty. -/
def emptyDict : TextureData :=
  { BaseColor := [], Roughness := [], Metallic := [], Normal := []
    Height := [], Opacity := [], prefer_exr := none, udim := none }

/-- A filesystem state in which no file exists. -/
def noFs : Path → Bool := fun _ => false

end AML

namespace AML

theorem sanity_splitext : splitext (strL "Rock_BaseColor.tif") = (strL "Rock_BaseColor", strL ".tif") := by decide

theorem sanity_normpath : normpath (strL "./Rock_Roughness.tif") = strL "Rock_Roughness.tif" := by decide

theorem sanity_search : reSearchCI (strL "BaseColor") (strL "Rock_BaseColor.tif") = some (5, 14) := by decide

theorem sanity_lod : reSubLod (strL "Rock_BaseColor_LOD1") = strL "Rock_BaseColor" := by decide

theorem seqThen_cons (c : Path) (a b : List Path × Option Path) :
    seqThen (c :: a.1, a.2) b = (c :: (seqThen a b).1, (seqThen a b).2) := by
  cases h : a.2 <;> simp [seqThen, h]

theorem probeSeq_append (fs : Path → Bool) (xs ys : List Path) :
    probeSeq fs (xs ++ ys) = seqThen (probeSeq fs xs) (probeSeq fs ys) := by
  induction xs with
  | nil => simp [probeSeq, seqThen]
  | cons c rest ih =>
    by_cases h : fs c
    · simp [probeSeq, seqThen, h]
    · calc probeSeq fs ((c :: rest) ++ ys)
          = (c :: (probeSeq fs (rest ++ ys)).1, (probeSeq fs (rest ++ ys)).2) := by
            simp [probeSeq, h]
        _ = (c :: (seqThen (probeSeq fs rest) (probeSeq fs ys)).1,
              (seqThen (probeSeq fs rest) (probeSeq fs ys)).2) := by rw [ih]
        _ = seqThen (c :: (probeSeq fs rest).1, (probeSeq fs rest).2) (probeSeq fs ys) :=
            (seqThen_cons c (probeSeq fs rest) (probeSeq fs ys)).symm
        _ = seqThen (probeSeq fs (c :: rest)) (probeSeq fs ys) := by simp [probeSeq, h]

theorem probeExts_eq (fs : Path → Bool) (pot : Path) (exts : List Path) :
    probeExts fs pot exts = probeSeq fs (exts.map fun e => (splitext pot).1 ++ e) := by
  induction exts with
  | nil => rfl
  | cons e rest ih =>
    by_cases h : fs ((splitext pot).1 ++ e) <;>
      simp [probeExts, probeSeq, h, ih]

theorem probeLods_eq (fs : Path → Bool) (norm : Path → Path) (exts : List Path)
    (ip : Path) (s e : Nat) (repl : Path) (lods : List Path) :
    probeLods fs norm exts ip s e repl lods
      = probeSeq fs (lods.flatMap fun lod => exts.map fun ext =>
          (splitext (norm (ip.take s ++ repl ++ lod ++ ip.drop e))).1 ++ ext) := by
  induction lods with
  | nil => rfl
  | cons lod rest ih =>
    simp only [probeLods, List.flatMap_cons, probeSeq_append, probeExts_eq, ih]

theorem probeRepls_eq (fs : Path → Bool) (norm : Path → Path) (exts : List Path)
    (ip term : Path) (repls : List Path) :
    probeRepls fs norm exts ip term repls
      = probeSeq fs (termCandidates norm exts ip term repls) := by
  induction repls with
  | nil =>
    cases h : reSearchCI term ip with
    | none => simp [probeRepls, termCandidates, h, probeSeq]
    | some se => simp [probeRepls, termCandidates, h, probeSeq]
  | cons repl rest ih =>
    cases h : reSearchCI term ip with
    | none => simpa [probeRepls, termCandidates, h] using by simpa [termCandidates, h] using ih
    | some se =>
      obtain ⟨s, e⟩ := se
      simp only [probeRepls, h, termCandidates, List.flatMap_cons, probeSeq_append,
        probeLods_eq]
      simp only [termCandidates, h] at ih
      rw [ih]

theorem probeTerms_eq (fs : Path → Bool) (norm : Path → Path) (exts : List Path)
    (ip : Path) (repls terms : List Path) :
    probeTerms fs norm exts ip repls terms
      = probeSeq fs (channelCandidates norm exts ip repls terms) := by
  induction terms with
  | nil => rfl
  | cons term rest ih =>
    simp only [probeTerms, channelCandidates, List.flatMap_cons, probeSeq_append,
      probeRepls_eq]
    simp only [channelCandidates] at ih
    rw [ih]

theorem probeSeq_snd (fs : Path → Bool) (l : List Path) :
    (probeSeq fs l).2 = l.find? fs := by
  induction l with
  | nil => rfl
  | cons c rest ih =>
    by_cases h : fs c <;> simp [probeSeq, h, ih, List.find?_cons]

theorem probeSeq_fst (fs : Path → Bool) (l : List Path) :
    (probeSeq fs l).1
      = l.takeWhile (fun c => !fs c) ++ (l.dropWhile (fun c => !fs c)).take 1 := by
  induction l with
  | nil => rfl
  | cons c rest ih =>
    by_cases h : fs c
    · simp [probeSeq, h]
    · simp [probeSeq, h, ih]

theorem findSub_spec (n : Path) :
    ∀ (h : Path) (i : Nat), findSub n h = some i →
      n.isPrefixOf (h.drop i) = true ∧ ∀ j, j < i → n.isPrefixOf (h.drop j) = false := by
  intro h
  induction h with
  | nil =>
    intro i hi
    by_cases hn : n = ([] : Path)
    · simp [findSub, hn] at hi
      subst hi
      simp [hn, List.isPrefixOf]
    · simp [findSub, hn] at hi
  | cons a t ih =>
    intro i hi
    by_cases hp : n.isPrefixOf (a :: t) = true
    · simp [findSub, hp] at hi
      subst hi
      exact ⟨hp, fun j hj => absurd hj (Nat.not_lt_zero j)⟩
    · simp only [findSub, hp, Bool.false_eq_true, if_false, Option.map_eq_some'] at hi
      obtain ⟨i', hi', hplus⟩ := hi
      subst hplus
      obtain ⟨h1, h2⟩ := ih i' hi'
      refine ⟨by simpa using h1, ?_⟩
      intro j hj
      cases j with
      | zero =>
        have hfalse : List.isPrefixOf n (a :: t) = false := by
          cases hb : List.isPrefixOf n (a :: t)
          · rfl
          · exact absurd hb hp
        simpa using hfalse
      | succ j' =>
        have := h2 j' (Nat.lt_of_succ_lt_succ hj)
        simpa using this

/-- C1: with dictionary `BaseColor = ["BaseColor", "Albedo"]`,
`Roughness = ["Roughness"]` and a filesystem in which only
`Rock_Roughness.png` exists, resolving `Rock_BaseColor.tif` returns
`Rock_Roughness.png`, and the existence probes are exactly
`Rock_Roughness.exr` (miss), `Rock_Roughness.jpg` (miss),
`Rock_Roughness.png` (hit) — the empty LOD suffix tried first. -/
theorem c1_example_scenario :
    resolveRoughness exampleFs exampleDict (strL "Rock_BaseColor.tif")
        = .found (strL "Rock_Roughness.png")
    ∧ roughnessTrace exampleFs exampleDict (strL "Rock_BaseColor.tif")
        = [strL "Rock_Roughness.exr", strL "Rock_Roughness.jpg", strL "Rock_Roughness.png"] := by
  constructor
  · decide
  · decide

/-- C2 counterexample: the claim's candidate formula
`filename[:match_start] + replacement + lod + filename[match_end:]` with
the extension substituted is falsified at the input
`./Rock_BaseColor.tif` with dictionary `BaseColor = ["BaseColor"]`,
`Roughness = ["Roughness"]` and no file present: `"BaseColor"` matches
the canonical path at span `(7, 16)`, the code's first probed candidate
is `Rock_Roughness.exr` (line 217's `os.path.normpath` stripped `./`),
while the claim's formula yields `./Rock_Roughness.exr`, so the probed
candidate list differs from the claimed one. -/
theorem c2_counterexample :
    reSearchCI (strL "BaseColor") (canonicalize (strL "./Rock_BaseColor.tif")) = some (7, 16)
    ∧ (roughnessTrace noFs minimalDict (strL "./Rock_BaseColor.tif")).head?
        = some (strL "Rock_Roughness.exr")
    ∧ (specGenerate (canonicalize (strL "./Rock_BaseColor.tif")) 7 16
        [strL "Roughness"] image_extensions).head?
        = some (strL "./Rock_Roughness.exr")
    ∧ roughnessTrace noFs minimalDict (strL "./Rock_BaseColor.tif")
        ≠ specGenerate (canonicalize (strL "./Rock_BaseColor.tif")) 7 16
            [strL "Roughness"] image_extensions := by
  refine ⟨by decide, by decide, by decide, by decide⟩

/-- C2 amended: for every roughness resolution, the probe loop is
equivalent to sequentially probing the candidate list enumerated in
strict nested priority order — outer loop over the matching base-color
terms then the replacement terms in dictionary order, middle loop over
the LOD suffixes `["", "_LOD0", "_LOD1", "_LOD2"]`, inner loop over the
extension list — where each candidate is
`os.path.normpath(filename[:match_start] + replacement_term + lod_suffix
+ filename[match_end:])` with the extension substituted (not appended)
by the current loop extension. -/
theorem c2_amended (fs : Path → Bool) (data : TextureData) (ip : Path) :
    probeTerms fs normpath image_extensions (canonicalize ip)
        (data.Roughness.map Entry.name) (data.BaseColor.map Entry.name)
      = probeSeq fs ((data.BaseColor.map Entry.name).flatMap (fun term =>
          match reSearchCI term (canonicalize ip) with
          | none => []
          | some (s, e) =>
            (data.Roughness.map Entry.name).flatMap (fun repl =>
              lod_levels.flatMap (fun lod =>
                image_extensions.map (fun ext =>
                  (splitext (normpath ((canonicalize ip).take s ++ repl ++ lod
                    ++ (canonicalize ip).drop e))).1 ++ ext))))) := by
  rw [probeTerms_eq]
  rfl

/-- C3: the displacement extension ordering is
`[.exr, .jpg, .png, .tif, .tiff]` when `prefer_exr` is true, and with
`.exr` moved to the end (relative order of the rest preserved) when the
flag is false or absent; and the roughness, metallic, normal and opacity
resolutions are unchanged by any value of the `prefer_exr` flag. -/
theorem c3_extension_policy :
    dispImageExtensions (some true)
        = [strL ".exr", strL ".jpg", strL ".png", strL ".tif", strL ".tiff"]
    ∧ dispImageExtensions (some false)
        = [strL ".jpg", strL ".png", strL ".tif", strL ".tiff", strL ".exr"]
    ∧ dispImageExtensions none
        = [strL ".jpg", strL ".png", strL ".tif", strL ".tiff", strL ".exr"]
    ∧ (∀ (fs : Path → Bool) (data : TextureData) (b : Option Bool) (ip : Path),
        resolveRoughness fs { data with prefer_exr := b } ip = resolveRoughness fs data ip
        ∧ resolveMetallic fs { data with prefer_exr := b } ip = resolveMetallic fs data ip
        ∧ resolveNormal fs { data with prefer_exr := b } ip = resolveNormal fs data ip
        ∧ resolveOpacity fs { data with prefer_exr := b } ip = resolveOpacity fs data ip) := by
  refine ⟨by decide, by decide, by decide, ?_⟩
  intro fs data b ip
  cases data
  exact ⟨rfl, rfl, rfl, rfl⟩

/-- C5: resolving `Rock_BaseColor_LOD1.png` and `Rock_BaseColor.png`
against the same dictionary yields the same canonical filename (the
`_LOD` suffix is stripped from the stem before term matching), hence
identical candidate lists, identical probe traces and identical results
on any fixed filesystem state. -/
theorem c5_lod_canonicalization (rg bc : List Path) (fs : Path → Bool) (data : TextureData) :
    channelCandidates normpath image_extensions
        (canonicalize (strL "Rock_BaseColor_LOD1.png")) rg bc
      = channelCandidates normpath image_extensions
          (canonicalize (strL "Rock_BaseColor.png")) rg bc
    ∧ roughnessTrace fs data (strL "Rock_BaseColor_LOD1.png")
        = roughnessTrace fs data (strL "Rock_BaseColor.png")
    ∧ resolveRoughness fs data (strL "Rock_BaseColor_LOD1.png")
        = resolveRoughness fs data (strL "Rock_BaseColor.png") := by
  have hc : canonicalize (strL "Rock_BaseColor_LOD1.png")
      = canonicalize (strL "Rock_BaseColor.png") := by decide
  refine ⟨by rw [hc], ?_, ?_⟩
  · simp only [roughnessTrace, hc]
  · simp only [resolveRoughness, resolveChannel, hc]

/-- C8: for every roughness resolution, the sequence of filesystem
existence probes is exactly the candidates that fail, in candidate
order, followed by the first existing candidate if there is one — each
candidate probed at most once, and no probe after the first success;
and the resolution result is the first existing candidate. -/
theorem c8_short_circuit (fs : Path → Bool) (data : TextureData) (ip : Path) :
    roughnessTrace fs data ip
      = (channelCandidates normpath image_extensions (canonicalize ip)
          (data.Roughness.map Entry.name) (data.BaseColor.map Entry.name)).takeWhile
            (fun c => !fs c)
        ++ ((channelCandidates normpath image_extensions (canonicalize ip)
          (data.Roughness.map Entry.name) (data.BaseColor.map Entry.name)).dropWhile
            (fun c => !fs c)).take 1
    ∧ (probeTerms fs normpath image_extensions (canonicalize ip)
        (data.Roughness.map Entry.name) (data.BaseColor.map Entry.name)).2
      = (channelCandidates normpath image_extensions (canonicalize ip)
          (data.Roughness.map Entry.name) (data.BaseColor.map Entry.name)).find? fs := by
  constructor
  · rw [roughnessTrace, probeTerms_eq, probeSeq_fst]
  · rw [probeTerms_eq, probeSeq_snd]

theorem flatMap_termCandidates_nil (ip : Path) (repls : List Path) :
    ∀ (l : List Path), (∀ u ∈ l, reSearchCI u ip = none) →
      l.flatMap (fun term => termCandidates normpath image_extensions ip term repls) = [] := by
  intro l
  induction l with
  | nil => intro _; rfl
  | cons u us ih =>
    intro hl
    rw [List.flatMap_cons]
    have hu : termCandidates normpath image_extensions ip u repls = [] := by
      unfold termCandidates
      rw [hl u (List.mem_cons_self u us)]
    rw [hu, List.nil_append]
    exact ih (fun v hv => hl v (List.mem_cons_of_mem u hv))

/-- C4: when the base-color term list is `pre ++ t :: post`, no term of
`pre` occurs in the (canonical) filename, and `t` does occur, then the
candidate list starts with the candidates built from `t`'s match span —
the dictionary-order-first occurring term wins regardless of string
positions — followed by the candidates of the later terms; moreover the
span used is exactly the leftmost case-insensitive occurrence of `t` and
its end offset is `start + length t`. -/
theorem c4_priority_order (pre post repls : List Path) (t ip : Path) (s e : Nat)
    (hpre : ∀ u ∈ pre, reSearchCI u ip = none)
    (ht : reSearchCI t ip = some (s, e)) :
    channelCandidates normpath image_extensions ip repls (pre ++ t :: post)
      = termCandidates normpath image_extensions ip t repls
        ++ channelCandidates normpath image_extensions ip repls post
    ∧ e = s + t.length
    ∧ (lowerStr t).isPrefixOf ((lowerStr ip).drop s) = true
    ∧ ∀ j, j < s → (lowerStr t).isPrefixOf ((lowerStr ip).drop j) = false := by
  have hfind : findSub (lowerStr t) (lowerStr ip) = some s ∧ e = s + t.length := by
    unfold reSearchCI at ht
    cases hf : findSub (lowerStr t) (lowerStr ip) with
    | none => rw [hf] at ht; exact absurd ht (by simp)
    | some i =>
      rw [hf] at ht
      simp only [Option.map_some', Option.some.injEq, Prod.mk.injEq] at ht
      obtain ⟨h1, h2⟩ := ht
      subst h1
      exact ⟨rfl, h2.symm⟩
  refine ⟨?_, hfind.2, (findSub_spec _ _ _ hfind.1).1, (findSub_spec _ _ _ hfind.1).2⟩
  unfold channelCandidates
  rw [List.flatMap_append, List.flatMap_cons,
    flatMap_termCandidates_nil ip repls pre hpre, List.nil_append]

/-- C4 witness: with dictionary order `["Color", "BaseColor"]` on
`Rock_BaseColor.tif`, both terms occur, `"Color"` (dictionary-first) is
used even though `"BaseColor"` occurs earlier in the string (offset 5
versus 9), and the span is the leftmost `"Color"` occurrence `(9, 14)`. -/
theorem c4_witness :
    (∀ u ∈ ([] : List Path), reSearchCI u (strL "Rock_BaseColor.tif") = none)
    ∧ reSearchCI (strL "Color") (strL "Rock_BaseColor.tif") = some (9, 14)
    ∧ (channelCandidates normpath image_extensions (strL "Rock_BaseColor.tif")
          [strL "Roughness"] ([] ++ strL "Color" :: [strL "BaseColor"])
        = termCandidates normpath image_extensions (strL "Rock_BaseColor.tif")
            (strL "Color") [strL "Roughness"]
          ++ channelCandidates normpath image_extensions (strL "Rock_BaseColor.tif")
              [strL "Roughness"] [strL "BaseColor"]
      ∧ 14 = 9 + (strL "Color").length
      ∧ (lowerStr (strL "Color")).isPrefixOf
          ((lowerStr (strL "Rock_BaseColor.tif")).drop 9) = true
      ∧ ∀ j, j < 9 → (lowerStr (strL "Color")).isPrefixOf
          ((lowerStr (strL "Rock_BaseColor.tif")).drop j) = false) :=
  ⟨by decide, by decide,
    c4_priority_order [] [strL "BaseColor"] [strL "Roughness"] (strL "Color")
      (strL "Rock_BaseColor.tif") 9 14 (by decide) (by decide)⟩

/-- C6: if the dictionary has no BaseColor entries or no entries for the
requested target category, resolution returns the configuration-error
outcome (the `"No valid texture terms found"` warning + early return,
before any candidate is generated or probed), for the roughness and the
metallic channel alike. -/
theorem c6_config_error (fs : Path → Bool) (data : TextureData) (ip : Path) :
    ((data.BaseColor = [] ∨ data.Roughness = []) →
      resolveRoughness fs data ip = .configError)
    ∧ ((data.BaseColor = [] ∨ data.Metallic = []) →
      resolveMetallic fs data ip = .configError) := by
  constructor
  · rintro (h | h) <;> simp [resolveRoughness, resolveChannel, h]
  · rintro (h | h) <;> simp [resolveMetallic, resolveChannel, h]

/-- C6 witness: the all-empty dictionary produces the
configuration-error outcome for roughness and metallic resolution. -/
theorem c6_witness :
    (emptyDict.BaseColor = [] ∨ emptyDict.Roughness = [])
    ∧ (emptyDict.BaseColor = [] ∨ emptyDict.Metallic = [])
    ∧ resolveRoughness noFs emptyDict (strL "Rock_BaseColor.tif") = .configError
    ∧ resolveMetallic noFs emptyDict (strL "Rock_BaseColor.tif") = .configError :=
  ⟨Or.inl rfl, Or.inl rfl,
    (c6_config_error noFs emptyDict (strL "Rock_BaseColor.tif")).1 (Or.inl rfl),
    (c6_config_error noFs emptyDict (strL "Rock_BaseColor.tif")).2 (Or.inl rfl)⟩

/-- C7: whenever both required term lists are nonempty and no generated
candidate exists on the filesystem, roughness resolution returns the
`notFound` outcome (a warning + early return in the source — no Python
exception is raised; every exit of the modelled code is a constructor of
`ResolveResult`). -/
theorem c7_not_found (fs : Path → Bool) (data : TextureData) (ip : Path)
    (h1 : data.BaseColor ≠ []) (h2 : data.Roughness ≠ [])
    (h3 : ∀ c ∈ channelCandidates normpath image_extensions (canonicalize ip)
        (data.Roughness.map Entry.name) (data.BaseColor.map Entry.name), fs c = false) :
    resolveRoughness fs data ip = .notFound := by
  have hb1 : (data.BaseColor.map Entry.name).isEmpty = false := by
    cases hb : data.BaseColor.map Entry.name with
    | nil => exact absurd (List.map_eq_nil_iff.mp hb) h1
    | cons a l => rfl
  have hb2 : (data.Roughness.map Entry.name).isEmpty = false := by
    cases hb : data.Roughness.map Entry.name with
    | nil => exact absurd (List.map_eq_nil_iff.mp hb) h2
    | cons a l => rfl
  have hnone : (channelCandidates normpath image_extensions (canonicalize ip)
      (data.Roughness.map Entry.name) (data.BaseColor.map Entry.name)).find? fs = none :=
    List.find?_eq_none.mpr (fun x hx => by rw [h3 x hx]; exact Bool.false_ne_true)
  unfold resolveRoughness resolveChannel
  rw [hb1, hb2, probeTerms_eq, probeSeq_snd, hnone]
  rfl

/-- C7 witness: with the one-term dictionary and an empty filesystem,
every candidate probe misses and resolution reports `notFound`. -/
theorem c7_witness :
    minimalDict.BaseColor ≠ []
    ∧ minimalDict.Roughness ≠ []
    ∧ (∀ c ∈ channelCandidates normpath image_extensions
        (canonicalize (strL "Rock_BaseColor.tif"))
        (minimalDict.Roughness.map Entry.name) (minimalDict.BaseColor.map Entry.name),
        noFs c = false)
    ∧ resolveRoughness noFs minimalDict (strL "Rock_BaseColor.tif") = .notFound :=
  ⟨by decide, by decide, by decide,
    c7_not_found noFs minimalDict (strL "Rock_BaseColor.tif")
      (by decide) (by decide) (by decide)⟩

/-- C9 counterexample: submitting the batch `["Foo", "Foo"]` to an empty
category passes the duplicate check (no submitted name exists in the
stored list), both copies are appended, and the resulting category has
two entries named `Foo` — so the add operation does not preserve
uniqueness of names within a category. -/
theorem c9_counterexample :
    (∀ n ∈ [strL "Foo", strL "Foo"], n ∉ (([] : List Entry).map Entry.name))
    ∧ add_texture_name [] [strL "Foo", strL "Foo"]
        = [{ name := strL "Foo", locked := false }, { name := strL "Foo", locked := false }]
    ∧ ¬ ((add_texture_name [] [strL "Foo", strL "Foo"]).map Entry.name).Nodup := by
  refine ⟨by decide, by decide, by decide⟩

/-- C9 amended: if any submitted name already exists (case-sensitively)
in the category, the whole batch is rejected and the stored list is
unchanged; otherwise every submitted name is appended with
`locked = false`; and name uniqueness within the category is preserved
provided the submitted batch itself contains no duplicate names (the
code only checks submitted names against existing ones, not against
each other). -/
theorem c9_amended (existing : List Entry) (names : List Path) :
    ((∃ n ∈ names, n ∈ existing.map Entry.name) →
      add_texture_name existing names = existing)
    ∧ ((∀ n ∈ names, n ∉ existing.map Entry.name) →
      add_texture_name existing names
        = existing ++ names.map (fun n => { name := n, locked := false }))
    ∧ ((existing.map Entry.name).Nodup → names.Nodup →
        (∀ n ∈ names, n ∉ existing.map Entry.name) →
        ((add_texture_name existing names).map Entry.name).Nodup) := by
  have hmem : ∀ n : Path, ((existing.map Entry.name).contains n = true)
      ↔ n ∈ existing.map Entry.name := fun n => List.elem_iff
  have happ : (∀ n ∈ names, n ∉ existing.map Entry.name) →
      add_texture_name existing names
        = existing ++ names.map (fun n => { name := n, locked := false }) := by
    intro h
    have hnil : names.filter (fun n => (existing.map Entry.name).contains n) = [] :=
      List.filter_eq_nil_iff.mpr (fun a ha hc => h a ha ((hmem a).mp hc))
    unfold add_texture_name
    rw [if_neg (fun hcon => hcon hnil)]
  refine ⟨?_, happ, ?_⟩
  · rintro ⟨n, hn, hin⟩
    have hne : names.filter (fun n => (existing.map Entry.name).contains n) ≠ [] :=
      List.ne_nil_of_mem (List.mem_filter.mpr ⟨hn, (hmem n).mpr hin⟩)
    unfold add_texture_name
    rw [if_pos hne]
  · intro hex hnames hdisj
    rw [happ hdisj, List.map_append, List.map_map]
    have hid : (Entry.name ∘ fun n => ({ name := n, locked := false } : Entry)) = id := rfl
    rw [hid, List.map_id]
    exact List.Nodup.append hex hnames (fun a ha hb => hdisj a hb ha)

/-- C9 witness: adding the fresh name `Rough` to a category holding only
`Roughness` appends it with `locked = false` and keeps names unique. -/
theorem c9_witness :
    ((([{ name := strL "Roughness", locked := true }] : List Entry).map Entry.name).Nodup)
    ∧ ([strL "Rough"] : List Path).Nodup
    ∧ (∀ n ∈ [strL "Rough"],
        n ∉ ([{ name := strL "Roughness", locked := true }] : List Entry).map Entry.name)
    ∧ ((add_texture_name [{ name := strL "Roughness", locked := true }]
        [strL "Rough"]).map Entry.name).Nodup :=
  ⟨by decide, by decide, by decide,
    (c9_amended [{ name := strL "Roughness", locked := true }] [strL "Rough"]).2.2
      (by decide) (by decide) (by decide)⟩

/-- C10: `validate_image_file` accepts a path exactly when the lowered
basename contains one of the dictionary BaseColor terms or one of the
hardcoded terms `basecolor`, `albedo`, `diffuse` (lowered); in
particular, for every dictionary, any path whose basename contains
`albedo` (case-insensitively) is accepted. -/
theorem c10_validate (file_path : Path) (terms : List Path) :
    (validate_image_file file_path terms = true ↔
      ∃ t ∈ terms ++ [strL "basecolor", strL "albedo", strL "diffuse"],
        (findSub (lowerStr t) (lowerStr (basename file_path))).isSome = true)
    ∧ ((findSub (strL "albedo") (lowerStr (basename file_path))).isSome = true →
        validate_image_file file_path terms = true) := by
  constructor
  · unfold validate_image_file
    exact List.any_eq_true
  · intro h
    unfold validate_image_file
    rw [List.any_eq_true]
    refine ⟨strL "albedo", List.mem_append.mpr (Or.inr (by decide)), ?_⟩
    have hl : lowerStr (strL "albedo") = strL "albedo" := by decide
    rw [hl]
    exact h

/-- C10 witness: `textures/Wood_Albedo.png` is accepted even with an
empty BaseColor term list, because its basename contains `albedo`. -/
theorem c10_witness :
    (findSub (strL "albedo") (lowerStr (basename (strL "textures/Wood_Albedo.png")))).isSome = true
    ∧ validate_image_file (strL "textures/Wood_Albedo.png") [] = true :=
  ⟨by decide, (c10_validate (strL "textures/Wood_Albedo.png") []).2 (by decide)⟩

end AML
